import Mathlib

/-!
Shallow embedding of `scripts/extract-ui-elements.py` (the transparency-bounds
cropper and its extraction pipeline) and proofs of the specification's claims
about it.

Embedding conventions:
* A PIL `Image` is a mode string plus a row-major grid of RGBA pixels
  (`List (List Pixel)`); PIL images are rectangular, which we carry as the
  `Image.Rectangular` predicate where a proof needs it.
* `np.any(mask, axis=1)` / `np.any(mask, axis=0)` become the per-row and
  per-column boolean lists `rowsAny` / `colsAny`; `np.where(v)[0][[0, -1]]`
  becomes `firstTrue` / `lastTrue` (first and last index holding `true`).
* PIL's `img.crop((left, upper, right, lower))` keeps the pixel rows
  `[upper, lower)` and columns `[left, right)`.  Every call site in the script
  passes a box inside the image (the autocrop box comes from indices of the
  image itself, and the per-region boxes are clamped with `max 0` / `min size`
  first), so the embedding implements the in-bounds behaviour by `drop`/`take`.
* Python coordinate arithmetic in `find_elements` (`max(0, x - padding)`,
  `min(img.width, x + w + padding)`) is over `Int`, then converted to the
  `Nat` indices used by the crop.
* `int(w*0.02)` and the other table entries of `define_ui_regions` are
  modelled by exact rational floors (`w * 2 / 100` in `Nat`); Python's binary
  floating point can differ from the exact floor by one pixel on some sizes,
  but no claim below depends on the numeric coordinates of the table, only on
  its entries being extracted one-for-one.
* File I/O and `print` calls are effects outside the data model and are
  omitted; `find_elements` returns the `extracted` list of records it builds,
  and `makeMetadata` builds the metadata dictionary written by `main`.
-/

/-- One RGBA pixel; channels are 0–255 integers, `a` is the opacity. -/
structure Pixel where
  r : Nat
  g : Nat
  b : Nat
  a : Nat
deriving DecidableEq, Repr

/-- An image: PIL mode string plus the row-major pixel grid. -/
structure Image where
  mode : String
  pixels : List (List Pixel)
deriving DecidableEq, Repr

/-- Height of the image (`img.height` in PIL): number of pixel rows. -/
def Image.height (img : Image) : Nat := img.pixels.length

/-- Width of the image (`img.width` in PIL): length of the first row
(PIL images are rectangular). -/
def Image.width (img : Image) : Nat := (img.pixels.headD []).length

/-- Rectangularity: every row has length `img.width`.  PIL guarantees this
for real images; we carry it as a hypothesis. -/
def Image.Rectangular (img : Image) : Prop :=
  ∀ row ∈ img.pixels, row.length = img.width

instance (img : Image) : Decidable img.Rectangular :=
  List.decidableBAll _ img.pixels

/-- The pixel at row `r`, column `c`, when both are in range. -/
def Image.pixelAt (img : Image) (r c : Nat) : Option Pixel :=
  (img.pixels[r]?).bind (fun row => row[c]?)

/-- The mask predicate of the script: `alpha > threshold`. -/
def isContent (threshold : Nat) (p : Pixel) : Bool :=
  decide (threshold < p.a)

/-- The row projection `np.any(mask, axis=1)`: one boolean per row, true
when the row holds a pixel with opacity above the threshold. -/
def rowsAny (img : Image) (threshold : Nat) : List Bool :=
  img.pixels.map (fun row => row.any (isContent threshold))

/-- Whether column `c` holds a pixel with opacity above the threshold. -/
def colHasContent (img : Image) (threshold c : Nat) : Bool :=
  img.pixels.any (fun row => ((row[c]?).map (isContent threshold)).getD false)

/-- The column projection `np.any(mask, axis=0)`: one boolean per column
index `0 ≤ c < width`. -/
def colsAny (img : Image) (threshold : Nat) : List Bool :=
  (List.range img.width).map (colHasContent img threshold)

/-- Index of the first `true`, `np.where(v)[0][0]` (meaningful only when the
list holds a `true`, which every call site guards with `np.any`). -/
def firstTrue : List Bool → Nat
  | [] => 0
  | b :: l => if b then 0 else firstTrue l + 1

/-- Index of the last `true`, `np.where(v)[0][-1]` (same guard). -/
def lastTrue : List Bool → Nat
  | [] => 0
  | b :: l => if l.any id then lastTrue l + 1 else if b then 0 else 0

/-- Inclusive content bounding box: first/last content row and column. -/
structure Rect where
  row_min : Nat
  row_max : Nat
  col_min : Nat
  col_max : Nat
deriving DecidableEq, Repr

/-- The bounds computation of `autocrop_transparency` (and the identical one
at the top of `find_elements`), as the spec's `computeContentBounds`:
threshold the alpha channel, project the mask on rows and columns, and take
first/last true indices; `none` when the mask is all false. -/
def computeContentBounds (img : Image) (threshold : Nat) : Option Rect :=
  let rows := rowsAny img threshold
  let cols := colsAny img threshold
  if rows.any id && cols.any id then
    some ⟨firstTrue rows, lastTrue rows, firstTrue cols, lastTrue cols⟩
  else none

/-- PIL `img.crop((left, upper, right, lower))` for an in-bounds box: keep
rows `[upper, lower)` and columns `[left, right)`; the mode is kept. -/
def Image.crop (img : Image) (left upper right lower : Nat) : Image :=
  { mode := img.mode,
    pixels := ((img.pixels.drop upper).take (lower - upper)).map
      (fun row => (row.drop left).take (right - left)) }

/-- The function `autocrop_transparency(img, threshold=10)`: images without an alpha
channel are returned untouched; otherwise crop to the content bounds with the
exclusive ends `col_max + 1`, `row_max + 1`, or return the image unchanged
when no pixel is above the threshold. -/
def autocrop_transparency (img : Image) (threshold : Nat := 10) : Image :=
  if img.mode = "RGBA" then
    match computeContentBounds img threshold with
    | some b => img.crop b.col_min b.row_min (b.col_max + 1) (b.row_max + 1)
    | none => img
  else img

/-- The spec's name for `autocrop_transparency`. -/
def cropToContent (img : Image) (threshold : Nat) : Image :=
  autocrop_transparency img threshold

/-- Conversion `img.convert('RGBA')` as used by the loader in `find_elements`.
Modelled from the spec: "non-alpha images are converted by filling a
fully-opaque alpha channel before processing". -/
def Image.convertRGBA (img : Image) : Image :=
  if img.mode = "RGBA" then img
  else { mode := "RGBA",
         pixels := img.pixels.map (fun row => row.map (fun p => { p with a := 255 })) }

/-- The padded, clamped crop box of the per-region loop of `find_elements`:
`x1 = max(0, x - padding)`, `y1 = max(0, y - padding)`,
`x2 = min(width, x + w + padding)`, `y2 = min(height, y + h + padding)`. -/
def paddedBox (img : Image) (x y w h padding : Int) : Int × Int × Int × Int :=
  (max 0 (x - padding), max 0 (y - padding),
   min (img.width : Int) (x + w + padding),
   min (img.height : Int) (y + h + padding))

/-- The spec's `cropWithPadding`: expand the region by `padding` on every
side, clamp to the image, and crop. -/
def cropWithPadding (img : Image) (x y w h padding : Int) : Image :=
  img.crop (paddedBox img x y w h padding).1.toNat
    (paddedBox img x y w h padding).2.1.toNat
    (paddedBox img x y w h padding).2.2.1.toNat
    (paddedBox img x y w h padding).2.2.2.toNat

/-- One entry of the hard-coded region table. -/
structure Region where
  name : String
  x : Nat
  y : Nat
  w : Nat
  h : Nat
deriving DecidableEq, Repr

/-- The table `define_ui_regions(width, height)`: the hard-coded percentage table.
`int(w*0.02)` etc. are modelled as exact floors `w * 2 / 100`. -/
def define_ui_regions (width height : Nat) : List Region :=
  let w := width
  let h := height
  [ ⟨"panel_victory", w * 2 / 100, h * 5 / 100, w * 15 / 100, h * 90 / 100⟩,
    ⟨"star_filled_01", w * 18 / 100, h * 5 / 100, w * 5 / 100, h * 15 / 100⟩,
    ⟨"star_filled_02", w * 24 / 100, h * 5 / 100, w * 5 / 100, h * 15 / 100⟩,
    ⟨"star_filled_03", w * 30 / 100, h * 5 / 100, w * 5 / 100, h * 15 / 100⟩,
    ⟨"star_empty_01", w * 18 / 100, h * 25 / 100, w * 5 / 100, h * 15 / 100⟩,
    ⟨"star_empty_02", w * 24 / 100, h * 25 / 100, w * 5 / 100, h * 15 / 100⟩,
    ⟨"star_empty_03", w * 30 / 100, h * 25 / 100, w * 5 / 100, h * 15 / 100⟩,
    ⟨"star_empty_04", w * 18 / 100, h * 45 / 100, w * 5 / 100, h * 15 / 100⟩,
    ⟨"star_empty_05", w * 24 / 100, h * 45 / 100, w * 5 / 100, h * 15 / 100⟩,
    ⟨"star_empty_06", w * 30 / 100, h * 45 / 100, w * 5 / 100, h * 15 / 100⟩,
    ⟨"icon_heart", w * 37 / 100, h * 5 / 100, w * 4 / 100, h * 12 / 100⟩,
    ⟨"counter_timer", w * 42 / 100, h * 5 / 100, w * 8 / 100, h * 12 / 100⟩,
    ⟨"icon_gem", w * 51 / 100, h * 5 / 100, w * 4 / 100, h * 12 / 100⟩,
    ⟨"icon_coin", w * 37 / 100, h * 20 / 100, w * 4 / 100, h * 12 / 100⟩,
    ⟨"counter_coins", w * 42 / 100, h * 20 / 100, w * 8 / 100, h * 12 / 100⟩,
    ⟨"badge_level_24", w * 37 / 100, h * 65 / 100, w * 4 / 100, h * 15 / 100⟩,
    ⟨"badge_level_25", w * 42 / 100, h * 65 / 100, w * 4 / 100, h * 15 / 100⟩,
    ⟨"badge_level_26", w * 47 / 100, h * 65 / 100, w * 4 / 100, h * 15 / 100⟩,
    ⟨"panel_defeat", w * 58 / 100, h * 5 / 100, w * 15 / 100, h * 90 / 100⟩,
    ⟨"button_new_game", w * 75 / 100, h * 5 / 100, w * 12 / 100, h * 12 / 100⟩,
    ⟨"button_resume", w * 75 / 100, h * 20 / 100, w * 12 / 100, h * 12 / 100⟩,
    ⟨"button_settings", w * 75 / 100, h * 35 / 100, w * 12 / 100, h * 12 / 100⟩,
    ⟨"button_shop", w * 75 / 100, h * 50 / 100, w * 12 / 100, h * 12 / 100⟩,
    ⟨"button_exit", w * 75 / 100, h * 65 / 100, w * 12 / 100, h * 12 / 100⟩,
    ⟨"decoration_grass_left", w * 2 / 100, h * 85 / 100, w * 8 / 100, h * 12 / 100⟩,
    ⟨"decoration_grass_right", w * 92 / 100, h * 85 / 100, w * 8 / 100, h * 12 / 100⟩ ]

/-- One record of the `extracted` list built by `find_elements` (the saved
file path is I/O and is omitted). -/
structure ExtractedElement where
  name : String
  original_box : Nat × Nat × Nat × Nat
  cropped_size : Nat × Nat
deriving DecidableEq, Repr

/-- The pure content of `find_elements(image, output_dir, padding=20)`:
convert to RGBA, return `[]` when the alpha mask is all false, otherwise
extract one padded, auto-cropped element per entry of the region table. -/
def find_elements (img0 : Image) (padding : Int := 20) : List ExtractedElement :=
  let img := img0.convertRGBA
  let rows := rowsAny img 10
  let cols := colsAny img 10
  if rows.any id && cols.any id then
    (define_ui_regions img.width img.height).map (fun reg =>
      let element_img :=
        autocrop_transparency
          (cropWithPadding img (reg.x : Int) (reg.y : Int) (reg.w : Int) (reg.h : Int) padding) 10
      { name := reg.name,
        original_box := (reg.x, reg.y, reg.w, reg.h),
        cropped_size := (element_img.width, element_img.height) })
  else []

/-- The metadata dictionary written by `main` (the `source` path string is
I/O glue and is omitted). -/
structure Metadata where
  elements : List ExtractedElement
  total : Nat
deriving DecidableEq, Repr

/-- Metadata construction in `main`: `total = len(extracted)`. -/
def makeMetadata (img : Image) (padding : Int) : Metadata :=
  let extracted := find_elements img padding
  { elements := extracted, total := extracted.length }

/-- Row `r` holds a pixel with opacity above the threshold. -/
def RowHas (img : Image) (threshold r : Nat) : Prop :=
  ∃ c p, img.pixelAt r c = some p ∧ threshold < p.a

/-- Column `c` holds a pixel with opacity above the threshold. -/
def ColHas (img : Image) (threshold c : Nat) : Prop :=
  ∃ r p, img.pixelAt r c = some p ∧ threshold < p.a


/- ### Concrete images used for the scenario claims and test instantiations -/

/-- A fully transparent pixel. -/
def clearPix : Pixel := ⟨0, 0, 0, 0⟩

/-- A fully opaque white pixel. -/
def contentPix : Pixel := ⟨255, 255, 255, 255⟩

/-- A 3×3 RGBA test image with a single visible pixel at row 1, column 1. -/
def dotImg : Image :=
  ⟨"RGBA", [[clearPix, clearPix, clearPix],
            [clearPix, contentPix, clearPix],
            [clearPix, clearPix, clearPix]]⟩

/-- A 50×50 fully transparent RGBA image (the spec's empty-sheet scenario). -/
def transparentImg : Image :=
  ⟨"RGBA", List.replicate 50 (List.replicate 50 clearPix)⟩

/-- A 4×4 fully opaque RGBA image. -/
def solidImg : Image :=
  ⟨"RGBA", List.replicate 4 (List.replicate 4 contentPix)⟩

/-- A 2×2 image without an alpha channel. -/
def rgbImg : Image :=
  ⟨"RGB", [[contentPix, contentPix], [contentPix, contentPix]]⟩

/-- The spec's scenario image: 100×100, fully transparent except a 10×10
opaque square occupying rows 40–49 and columns 40–49, i.e. the PIL-style
box (40, 40, 50, 50). -/
def squareImg : Image :=
  ⟨"RGBA",
    List.replicate 40 (List.replicate 100 clearPix) ++
    List.replicate 10
      (List.replicate 40 clearPix ++ List.replicate 10 contentPix ++
       List.replicate 50 clearPix) ++
    List.replicate 50 (List.replicate 100 clearPix)⟩

/- ### Properties of the first/last true index -/

theorem any_of_getElem?_true {l : List Bool} {i : Nat} (h : l[i]? = some true) :
    l.any id = true :=
  List.any_eq_true.mpr ⟨true, List.mem_iff_getElem?.mpr ⟨i, h⟩, rfl⟩

theorem firstTrue_lt_length {l : List Bool} (h : l.any id = true) :
    firstTrue l < l.length := by
  induction l with
  | nil => simp at h
  | cons b l ih =>
    cases b with
    | true => simp [firstTrue]
    | false =>
      have hl : l.any id = true := by simpa using h
      simp only [firstTrue, if_neg Bool.false_ne_true, List.length_cons]
      exact Nat.succ_lt_succ (ih hl)

theorem getElem?_firstTrue {l : List Bool} (h : l.any id = true) :
    l[firstTrue l]? = some true := by
  induction l with
  | nil => simp at h
  | cons b l ih =>
    cases b with
    | true => simp [firstTrue]
    | false =>
      have hl : l.any id = true := by simpa using h
      simp only [firstTrue, if_neg Bool.false_ne_true, List.getElem?_cons_succ]
      exact ih hl

theorem firstTrue_le {l : List Bool} {i : Nat} (h : l[i]? = some true) :
    firstTrue l ≤ i := by
  induction l generalizing i with
  | nil => simp at h
  | cons b l ih =>
    cases b with
    | true => simp [firstTrue]
    | false =>
      cases i with
      | zero =>
        rw [List.getElem?_cons_zero] at h
        exact absurd (Option.some.inj h) Bool.false_ne_true
      | succ i =>
        rw [List.getElem?_cons_succ] at h
        simp only [firstTrue, if_neg Bool.false_ne_true]
        exact Nat.succ_le_succ (ih h)

theorem lastTrue_lt_length {l : List Bool} (h : l.any id = true) :
    lastTrue l < l.length := by
  induction l with
  | nil => simp at h
  | cons b l ih =>
    cases hl : l.any id with
    | true =>
      simp only [lastTrue, hl, if_pos, List.length_cons]
      exact Nat.succ_lt_succ (ih hl)
    | false =>
      simp only [lastTrue, hl, List.length_cons]
      cases b <;> simp

theorem getElem?_lastTrue {l : List Bool} (h : l.any id = true) :
    l[lastTrue l]? = some true := by
  induction l with
  | nil => simp at h
  | cons b l ih =>
    cases hl : l.any id with
    | true =>
      simp only [lastTrue, hl, if_pos, List.getElem?_cons_succ]
      exact ih hl
    | false =>
      have hb : b = true := by
        cases b with
        | true => rfl
        | false => simp [hl] at h
      simp [lastTrue, hl, hb]

theorem le_lastTrue {l : List Bool} {i : Nat} (h : l[i]? = some true) :
    i ≤ lastTrue l := by
  induction l generalizing i with
  | nil => simp at h
  | cons b l ih =>
    cases i with
    | zero => exact Nat.zero_le _
    | succ i =>
      rw [List.getElem?_cons_succ] at h
      have hl : l.any id = true := any_of_getElem?_true h
      simp only [lastTrue, hl, if_pos]
      exact Nat.succ_le_succ (ih h)

/- ### Characterizing the row/column projections -/

theorem row_any_iff (row : List Pixel) (t : Nat) :
    row.any (isContent t) = true ↔ ∃ (c : Nat) (p : Pixel), row[c]? = some p ∧ t < p.a := by
  rw [List.any_eq_true]
  constructor
  · rintro ⟨p, hp, hc⟩
    obtain ⟨c, hc'⟩ := List.mem_iff_getElem?.mp hp
    exact ⟨c, p, hc', by simpa [isContent] using hc⟩
  · rintro ⟨c, p, hc, ha⟩
    exact ⟨p, List.mem_iff_getElem?.mpr ⟨c, hc⟩, by simpa [isContent]⟩

theorem rowsAny_length (img : Image) (t : Nat) :
    (rowsAny img t).length = img.height := by
  simp [rowsAny, Image.height]

theorem colsAny_length (img : Image) (t : Nat) :
    (colsAny img t).length = img.width := by
  simp [colsAny]

theorem rowsAny_eq_some_true_iff (img : Image) (t r : Nat) :
    (rowsAny img t)[r]? = some true ↔ RowHas img t r := by
  unfold rowsAny RowHas Image.pixelAt
  rw [List.getElem?_map]
  cases hrow : img.pixels[r]? with
  | none => simp
  | some row =>
    simp only [Option.map_some', Option.some.injEq, Option.some_bind]
    exact row_any_iff row t

theorem colHasContent_iff (img : Image) (t c : Nat) :
    colHasContent img t c = true ↔ ColHas img t c := by
  unfold colHasContent ColHas Image.pixelAt
  rw [List.any_eq_true]
  constructor
  · rintro ⟨row, hrow, hx⟩
    cases hc : row[c]? with
    | none => simp [hc] at hx
    | some p =>
      obtain ⟨r, hr⟩ := List.mem_iff_getElem?.mp hrow
      refine ⟨r, p, by simp [hr, hc], ?_⟩
      simpa [hc, isContent] using hx
  · rintro ⟨r, p, hp, ha⟩
    cases hr : img.pixels[r]? with
    | none => simp [hr] at hp
    | some row =>
      rw [hr] at hp
      simp only [Option.some_bind] at hp
      exact ⟨row, List.mem_iff_getElem?.mpr ⟨r, hr⟩, by simp [hp, isContent, ha]⟩

theorem colsAny_eq_some_true_iff (img : Image) (t c : Nat) (hc : c < img.width) :
    (colsAny img t)[c]? = some true ↔ ColHas img t c := by
  unfold colsAny
  rw [List.getElem?_map, List.getElem?_range hc]
  simp [colHasContent_iff]

theorem RowHas_lt_height {img : Image} {t r : Nat} (h : RowHas img t r) :
    r < img.height := by
  obtain ⟨c, p, hp, -⟩ := h
  unfold Image.pixelAt at hp
  cases hr : img.pixels[r]? with
  | none => rw [hr] at hp; simp at hp
  | some row => exact (List.getElem?_eq_some.mp hr).1

theorem ColHas_lt_width {img : Image} {t c : Nat} (hrect : img.Rectangular)
    (h : ColHas img t c) : c < img.width := by
  obtain ⟨r, p, hp, -⟩ := h
  unfold Image.pixelAt at hp
  cases hr : img.pixels[r]? with
  | none => rw [hr] at hp; simp at hp
  | some row =>
    rw [hr] at hp
    simp only [Option.some_bind] at hp
    have hlen : c < row.length := (List.getElem?_eq_some.mp hp).1
    rwa [hrect row (List.mem_iff_getElem?.mpr ⟨r, hr⟩)] at hlen

theorem rowsAny_any_iff (img : Image) (t : Nat) :
    (rowsAny img t).any id = true ↔ ∃ r, RowHas img t r := by
  constructor
  · intro h
    rw [List.any_eq_true] at h
    obtain ⟨x, hx, hid⟩ := h
    obtain ⟨r, hr⟩ := List.mem_iff_getElem?.mp hx
    have hx' : x = true := hid
    rw [hx'] at hr
    exact ⟨r, (rowsAny_eq_some_true_iff img t r).mp hr⟩
  · rintro ⟨r, hr⟩
    exact any_of_getElem?_true ((rowsAny_eq_some_true_iff img t r).mpr hr)

theorem colsAny_any_iff (img : Image) (t : Nat) (hrect : img.Rectangular) :
    (colsAny img t).any id = true ↔ ∃ c, ColHas img t c := by
  constructor
  · intro h
    rw [List.any_eq_true] at h
    obtain ⟨x, hx, hid⟩ := h
    obtain ⟨c, hc⟩ := List.mem_iff_getElem?.mp hx
    have hx' : x = true := hid
    rw [hx'] at hc
    have hcw : c < img.width := by
      have := (List.getElem?_eq_some.mp hc).1
      rwa [colsAny_length] at this
    exact ⟨c, (colsAny_eq_some_true_iff img t c hcw).mp hc⟩
  · rintro ⟨c, hc⟩
    have hcw : c < img.width := ColHas_lt_width hrect hc
    exact any_of_getElem?_true ((colsAny_eq_some_true_iff img t c hcw).mpr hc)

/- ### Inverting the bounds computation -/

theorem computeContentBounds_eq_some_of_any (img : Image) (t : Nat)
    (hr : (rowsAny img t).any id = true) (hc : (colsAny img t).any id = true) :
    computeContentBounds img t =
      some ⟨firstTrue (rowsAny img t), lastTrue (rowsAny img t),
            firstTrue (colsAny img t), lastTrue (colsAny img t)⟩ := by
  unfold computeContentBounds
  simp [hr, hc]

theorem computeContentBounds_eq_none_of_no_row (img : Image) (t : Nat)
    (h : ¬ ∃ r, RowHas img t r) : computeContentBounds img t = none := by
  have hfalse : (rowsAny img t).any id = false := by
    cases hany : (rowsAny img t).any id with
    | false => rfl
    | true => exact absurd ((rowsAny_any_iff img t).mp hany) h
  unfold computeContentBounds
  simp [hfalse]

/-- Full inversion of a successful bounds computation: the four edges of the
returned rectangle each hold content, the rectangle is inside the image, and
every content row/column lies inside it. -/
theorem bounds_inv (img : Image) (t : Nat) (hrect : img.Rectangular) (b : Rect)
    (hb : computeContentBounds img t = some b) :
    RowHas img t b.row_min ∧ RowHas img t b.row_max ∧
    ColHas img t b.col_min ∧ ColHas img t b.col_max ∧
    b.row_min ≤ b.row_max ∧ b.row_max < img.height ∧
    b.col_min ≤ b.col_max ∧ b.col_max < img.width ∧
    (∀ r, RowHas img t r → b.row_min ≤ r ∧ r ≤ b.row_max) ∧
    (∀ c, ColHas img t c → b.col_min ≤ c ∧ c ≤ b.col_max) := by
  unfold computeContentBounds at hb
  simp only at hb
  split at hb
  case isFalse => exact absurd hb (by simp)
  case isTrue hcond =>
    rw [Bool.and_eq_true] at hcond
    obtain ⟨hrany, hcany⟩ := hcond
    obtain rfl : (⟨firstTrue (rowsAny img t), lastTrue (rowsAny img t),
                   firstTrue (colsAny img t), lastTrue (colsAny img t)⟩ : Rect) = b :=
      Option.some.inj hb
    refine ⟨?_, ?_, ?_, ?_, ?_, ?_, ?_, ?_, ?_, ?_⟩
    · exact (rowsAny_eq_some_true_iff img t _).mp (getElem?_firstTrue hrany)
    · exact (rowsAny_eq_some_true_iff img t _).mp (getElem?_lastTrue hrany)
    · have hcw : firstTrue (colsAny img t) < img.width := by
        have := firstTrue_lt_length hcany
        rwa [colsAny_length] at this
      exact (colsAny_eq_some_true_iff img t _ hcw).mp (getElem?_firstTrue hcany)
    · have hcw : lastTrue (colsAny img t) < img.width := by
        have := lastTrue_lt_length hcany
        rwa [colsAny_length] at this
      exact (colsAny_eq_some_true_iff img t _ hcw).mp (getElem?_lastTrue hcany)
    · exact firstTrue_le (getElem?_lastTrue hrany)
    · have := lastTrue_lt_length hrany
      rwa [rowsAny_length] at this
    · exact firstTrue_le (getElem?_lastTrue hcany)
    · have := lastTrue_lt_length hcany
      rwa [colsAny_length] at this
    · intro r hr
      have h' := (rowsAny_eq_some_true_iff img t r).mpr hr
      exact ⟨firstTrue_le h', le_lastTrue h'⟩
    · intro c hc
      have hcw : c < img.width := ColHas_lt_width hrect hc
      have h' := (colsAny_eq_some_true_iff img t c hcw).mpr hc
      exact ⟨firstTrue_le h', le_lastTrue h'⟩

theorem bounds_isSome (img : Image) (t : Nat) (hrect : img.Rectangular)
    (h : ∃ r, RowHas img t r) : ∃ b, computeContentBounds img t = some b := by
  have hrany := (rowsAny_any_iff img t).mpr h
  obtain ⟨r, c, p, hp, ha⟩ := h
  have hcany := (colsAny_any_iff img t hrect).mpr ⟨c, r, p, hp, ha⟩
  exact ⟨_, computeContentBounds_eq_some_of_any img t hrany hcany⟩

/- ### Crop geometry -/

theorem Image.crop_mode (img : Image) (l u r d : Nat) :
    (img.crop l u r d).mode = img.mode := rfl

theorem Image.pixelAt_crop (img : Image) (l u r d i j : Nat) :
    (img.crop l u r d).pixelAt i j =
      if i < d - u ∧ j < r - l then img.pixelAt (u + i) (l + j) else none := by
  unfold Image.crop Image.pixelAt
  simp only [List.getElem?_map, List.getElem?_take, List.getElem?_drop]
  cases hrow : img.pixels[u + i]? with
  | none =>
    by_cases hi : i < d - u <;> by_cases hj : j < r - l <;>
      simp [hi, hj, hrow, List.getElem?_take, List.getElem?_drop]
  | some row =>
    by_cases hi : i < d - u <;> by_cases hj : j < r - l <;>
      simp [hi, hj, hrow, List.getElem?_take, List.getElem?_drop]

theorem Image.crop_height (img : Image) (l u r d : Nat)
    (hd : d ≤ img.height) :
    (img.crop l u r d).height = d - u := by
  unfold Image.crop Image.height at *
  simp only [List.length_map, List.length_take, List.length_drop]
  omega

theorem Image.crop_row_length (img : Image) (hrect : img.Rectangular)
    {l u r d : Nat} (hr : r ≤ img.width) :
    ∀ row ∈ (img.crop l u r d).pixels, row.length = r - l := by
  intro row hrow
  unfold Image.crop at hrow
  simp only [List.mem_map] at hrow
  obtain ⟨row0, hrow0, rfl⟩ := hrow
  have hmem : row0 ∈ img.pixels :=
    (List.drop_sublist u img.pixels).mem ((List.take_sublist _ _).mem hrow0)
  have hlen : row0.length = img.width := hrect row0 hmem
  simp only [List.length_take, List.length_drop, hlen]
  omega

theorem Image.crop_width (img : Image) (hrect : img.Rectangular)
    {l u r d : Nat} (hu : u < img.height) (hud : u < d) (hr : r ≤ img.width) :
    (img.crop l u r d).width = r - l := by
  have hu' : u < img.pixels.length := hu
  have hlen : 0 < (img.crop l u r d).pixels.length := by
    unfold Image.crop
    simp only [List.length_map, List.length_take, List.length_drop]
    omega
  cases hpx : (img.crop l u r d).pixels with
  | nil => rw [hpx] at hlen; simp at hlen
  | cons row0 rest =>
    have hmem : row0 ∈ (img.crop l u r d).pixels := by
      rw [hpx]; exact List.mem_cons_self _ _
    have hlen0 := Image.crop_row_length img hrect hr row0 hmem
    unfold Image.width
    rw [hpx]
    simpa using hlen0

theorem Image.crop_rectangular (img : Image) (hrect : img.Rectangular)
    {l u r d : Nat} (hu : u < img.height) (hud : u < d) (hr : r ≤ img.width) :
    (img.crop l u r d).Rectangular := by
  intro row hrow
  rw [Image.crop_width img hrect hu hud hr]
  exact Image.crop_row_length img hrect hr row hrow

/-- Cropping a rectangular image to its full box is the identity. -/
theorem Image.crop_full (img : Image) (hrect : img.Rectangular) :
    img.crop 0 0 img.width img.height = img := by
  obtain ⟨mode, pixels⟩ := img
  unfold Image.crop
  simp only [Image.mk.injEq, true_and]
  rw [List.drop_zero, Nat.sub_zero, Nat.sub_zero]
  have htake : pixels.take (Image.mk mode pixels).height = pixels :=
    List.take_length pixels
  rw [show (Image.mk mode pixels).height = pixels.length from rfl,
    List.take_length]
  have : ∀ row ∈ pixels, (row.drop 0).take (Image.mk mode pixels).width = row := by
    intro row hrow
    rw [List.drop_zero]
    exact List.take_of_length_le (Nat.le_of_eq (hrect row hrow))
  rw [List.map_congr_left this]
  simp

/- ### Unfolding autocrop_transparency -/

theorem autocrop_of_not_rgba (img : Image) (t : Nat) (h : img.mode ≠ "RGBA") :
    autocrop_transparency img t = img := by
  unfold autocrop_transparency
  simp [h]

theorem autocrop_of_none (img : Image) (t : Nat)
    (h : computeContentBounds img t = none) :
    autocrop_transparency img t = img := by
  unfold autocrop_transparency
  rw [h]
  split <;> rfl

theorem autocrop_of_some (img : Image) (t : Nat) (hm : img.mode = "RGBA")
    (b : Rect) (h : computeContentBounds img t = some b) :
    autocrop_transparency img t =
      img.crop b.col_min b.row_min (b.col_max + 1) (b.row_max + 1) := by
  unfold autocrop_transparency
  rw [h, if_pos hm]

/-- Geometry of the image produced by a successful autocrop: dimensions are
the inclusive spans plus one, rectangularity is preserved, and pixel `(i, j)`
of the result is pixel `(row_min + i, col_min + j)` of the source. -/
theorem cropped_spec (img : Image) (t : Nat) (hrect : img.Rectangular)
    (b : Rect) (hb : computeContentBounds img t = some b) :
    (img.crop b.col_min b.row_min (b.col_max + 1) (b.row_max + 1)).height =
        b.row_max - b.row_min + 1 ∧
    (img.crop b.col_min b.row_min (b.col_max + 1) (b.row_max + 1)).width =
        b.col_max - b.col_min + 1 ∧
    (img.crop b.col_min b.row_min (b.col_max + 1) (b.row_max + 1)).Rectangular ∧
    (∀ i j, i ≤ b.row_max - b.row_min → j ≤ b.col_max - b.col_min →
      (img.crop b.col_min b.row_min (b.col_max + 1) (b.row_max + 1)).pixelAt i j =
        img.pixelAt (b.row_min + i) (b.col_min + j)) := by
  obtain ⟨-, -, -, -, hrle, hrlt, hcle, hclt, -, -⟩ := bounds_inv img t hrect b hb
  have hd : b.row_max + 1 ≤ img.height := hrlt
  have hr : b.col_max + 1 ≤ img.width := hclt
  have hu : b.row_min < img.height := Nat.lt_of_le_of_lt hrle hrlt
  have hud : b.row_min < b.row_max + 1 := Nat.lt_succ_of_le hrle
  refine ⟨?_, ?_, ?_, ?_⟩
  · rw [Image.crop_height img _ _ _ _ hd]
    omega
  · rw [Image.crop_width img hrect hu hud hr]
    omega
  · exact Image.crop_rectangular img hrect hu hud hr
  · intro i j hi hj
    rw [Image.pixelAt_crop]
    rw [if_pos ⟨by omega, by omega⟩]

/-- After a successful autocrop, the content bounds of the result are its
full extent: row/column `0` up to the last row/column. -/
theorem bounds_of_cropped (img : Image) (t : Nat) (hrect : img.Rectangular)
    (b : Rect) (hb : computeContentBounds img t = some b) :
    computeContentBounds
        (img.crop b.col_min b.row_min (b.col_max + 1) (b.row_max + 1)) t =
      some ⟨0, b.row_max - b.row_min, 0, b.col_max - b.col_min⟩ := by
  obtain ⟨hrmin, hrmax, hcmin, hcmax, hrle, hrlt, hcle, hclt, hrowIn, hcolIn⟩ :=
    bounds_inv img t hrect b hb
  obtain ⟨hH, hW, hrect', htrans⟩ := cropped_spec img t hrect b hb
  set img' := img.crop b.col_min b.row_min (b.col_max + 1) (b.row_max + 1) with himg'
  have hrow0 : RowHas img' t 0 := by
    obtain ⟨c, p, hp, ha⟩ := hrmin
    obtain ⟨hc1, hc2⟩ := hcolIn c ⟨b.row_min, p, hp, ha⟩
    have htr := htrans 0 (c - b.col_min) (Nat.zero_le _) (by omega)
    rw [Nat.add_zero, show b.col_min + (c - b.col_min) = c by omega] at htr
    exact ⟨c - b.col_min, p, by rw [htr]; exact hp, ha⟩
  have hrowN : RowHas img' t (b.row_max - b.row_min) := by
    obtain ⟨c, p, hp, ha⟩ := hrmax
    obtain ⟨hc1, hc2⟩ := hcolIn c ⟨b.row_max, p, hp, ha⟩
    have htr := htrans (b.row_max - b.row_min) (c - b.col_min)
      (Nat.le_refl _) (by omega)
    rw [show b.row_min + (b.row_max - b.row_min) = b.row_max by omega,
      show b.col_min + (c - b.col_min) = c by omega] at htr
    exact ⟨c - b.col_min, p, by rw [htr]; exact hp, ha⟩
  have hcol0 : ColHas img' t 0 := by
    obtain ⟨r, p, hp, ha⟩ := hcmin
    obtain ⟨hr1, hr2⟩ := hrowIn r ⟨b.col_min, p, hp, ha⟩
    have htr := htrans (r - b.row_min) 0 (by omega) (Nat.zero_le _)
    rw [Nat.add_zero, show b.row_min + (r - b.row_min) = r by omega] at htr
    exact ⟨r - b.row_min, p, by rw [htr]; exact hp, ha⟩
  have hcolN : ColHas img' t (b.col_max - b.col_min) := by
    obtain ⟨r, p, hp, ha⟩ := hcmax
    obtain ⟨hr1, hr2⟩ := hrowIn r ⟨b.col_max, p, hp, ha⟩
    have htr := htrans (r - b.row_min) (b.col_max - b.col_min)
      (by omega) (Nat.le_refl _)
    rw [show b.row_min + (r - b.row_min) = r by omega,
      show b.col_min + (b.col_max - b.col_min) = b.col_max by omega] at htr
    exact ⟨r - b.row_min, p, by rw [htr]; exact hp, ha⟩
  have hrany' : (rowsAny img' t).any id = true :=
    (rowsAny_any_iff img' t).mpr ⟨0, hrow0⟩
  have hcany' : (colsAny img' t).any id = true :=
    (colsAny_any_iff img' t hrect').mpr ⟨0, hcol0⟩
  rw [computeContentBounds_eq_some_of_any img' t hrany' hcany']
  have hft_rows : firstTrue (rowsAny img' t) = 0 :=
    Nat.le_zero.mp (firstTrue_le ((rowsAny_eq_some_true_iff img' t 0).mpr hrow0))
  have hlt_rows : lastTrue (rowsAny img' t) = b.row_max - b.row_min := by
    have h1 : b.row_max - b.row_min ≤ lastTrue (rowsAny img' t) :=
      le_lastTrue ((rowsAny_eq_some_true_iff img' t _).mpr hrowN)
    have h2 : lastTrue (rowsAny img' t) < (rowsAny img' t).length :=
      lastTrue_lt_length hrany'
    rw [rowsAny_length, hH] at h2
    omega
  have hft_cols : firstTrue (colsAny img' t) = 0 :=
    Nat.le_zero.mp (firstTrue_le
      ((colsAny_eq_some_true_iff img' t 0 (by rw [hW]; omega)).mpr hcol0))
  have hlt_cols : lastTrue (colsAny img' t) = b.col_max - b.col_min := by
    have h1 : b.col_max - b.col_min ≤ lastTrue (colsAny img' t) :=
      le_lastTrue ((colsAny_eq_some_true_iff img' t _ (by rw [hW]; omega)).mpr hcolN)
    have h2 : lastTrue (colsAny img' t) < (colsAny img' t).length :=
      lastTrue_lt_length hcany'
    rw [colsAny_length, hW] at h2
    omega
  rw [hft_rows, hlt_rows, hft_cols, hlt_cols]

/- ### Transparent images, conversion, and the extraction pipeline -/

theorem no_row_of_transparent (img : Image) (t : Nat)
    (h : ∀ row ∈ img.pixels, ∀ p ∈ row, p.a ≤ t) : ¬ ∃ r, RowHas img t r := by
  rintro ⟨r, c, p, hp, ha⟩
  unfold Image.pixelAt at hp
  cases hr : img.pixels[r]? with
  | none => rw [hr] at hp; simp at hp
  | some row =>
    rw [hr] at hp
    simp only [Option.some_bind] at hp
    have := h row (List.mem_iff_getElem?.mpr ⟨r, hr⟩) p
      (List.mem_iff_getElem?.mpr ⟨c, hp⟩)
    omega

theorem convertRGBA_mode (img : Image) : img.convertRGBA.mode = "RGBA" := by
  unfold Image.convertRGBA
  by_cases h : img.mode = "RGBA" <;> simp [h]

theorem convertRGBA_of_rgba (img : Image) (h : img.mode = "RGBA") :
    img.convertRGBA = img := by
  unfold Image.convertRGBA
  simp [h]

theorem convertRGBA_idem (img : Image) :
    img.convertRGBA.convertRGBA = img.convertRGBA :=
  convertRGBA_of_rgba _ (convertRGBA_mode img)

theorem convertRGBA_width (img : Image) : img.convertRGBA.width = img.width := by
  unfold Image.convertRGBA Image.width
  by_cases hm : img.mode = "RGBA"
  · simp [hm]
  · simp only [hm, if_false]
    cases img.pixels with
    | nil => simp
    | cons r rest => simp

theorem convertRGBA_rectangular {img : Image} (h : img.Rectangular) :
    img.convertRGBA.Rectangular := by
  intro row hrow
  rw [convertRGBA_width]
  unfold Image.convertRGBA at hrow
  by_cases hm : img.mode = "RGBA"
  · rw [if_pos hm] at hrow
    exact h row hrow
  · rw [if_neg hm] at hrow
    simp only [List.mem_map] at hrow
    obtain ⟨row0, hrow0, rfl⟩ := hrow
    simp [h row0 hrow0]

theorem define_ui_regions_length (w h : Nat) :
    (define_ui_regions w h).length = 26 := rfl

theorem find_elements_length_of_content (img : Image) (padding : Int)
    (hr : (rowsAny img.convertRGBA 10).any id = true)
    (hc : (colsAny img.convertRGBA 10).any id = true) :
    (find_elements img padding).length = 26 := by
  unfold find_elements
  simp [hr, hc, define_ui_regions_length]

theorem find_elements_of_empty (img : Image) (padding : Int)
    (h : ¬ ((rowsAny img.convertRGBA 10).any id
          && (colsAny img.convertRGBA 10).any id) = true) :
    find_elements img padding = [] := by
  unfold find_elements
  simp [h]

/- ### The claims -/

/-- C1: for every image with at least one pixel whose opacity exceeds the
threshold, `computeContentBounds` returns the rectangle spanning from the
first to the last content row and from the first to the last content column,
inclusive: it contains every above-threshold pixel, and each of its four edge
rows/columns itself holds an above-threshold pixel (tightness). -/
theorem C1_computeContentBounds_tight (img : Image) (t : Nat)
    (hrect : img.Rectangular)
    (h : ∃ (r c : Nat) (p : Pixel), img.pixelAt r c = some p ∧ t < p.a) :
    ∃ b, computeContentBounds img t = some b ∧
      (∀ (r c : Nat) (p : Pixel), img.pixelAt r c = some p → t < p.a →
        b.row_min ≤ r ∧ r ≤ b.row_max ∧ b.col_min ≤ c ∧ c ≤ b.col_max) ∧
      RowHas img t b.row_min ∧ RowHas img t b.row_max ∧
      ColHas img t b.col_min ∧ ColHas img t b.col_max := by
  obtain ⟨r, c, p, hp, ha⟩ := h
  obtain ⟨b, hb⟩ := bounds_isSome img t hrect ⟨r, ⟨c, p, hp, ha⟩⟩
  obtain ⟨h1, h2, h3, h4, -, -, -, -, hrowIn, hcolIn⟩ := bounds_inv img t hrect b hb
  refine ⟨b, hb, ?_, h1, h2, h3, h4⟩
  intro r' c' p' hp' ha'
  obtain ⟨hr1, hr2⟩ := hrowIn r' ⟨c', p', hp', ha'⟩
  obtain ⟨hc1, hc2⟩ := hcolIn c' ⟨r', p', hp', ha'⟩
  exact ⟨hr1, hr2, hc1, hc2⟩

theorem C1_witness :
    dotImg.Rectangular ∧
    (∃ (r c : Nat) (p : Pixel), dotImg.pixelAt r c = some p ∧ 10 < p.a) ∧
    (∃ b, computeContentBounds dotImg 10 = some b ∧
      (∀ (r c : Nat) (p : Pixel), dotImg.pixelAt r c = some p → 10 < p.a →
        b.row_min ≤ r ∧ r ≤ b.row_max ∧ b.col_min ≤ c ∧ c ≤ b.col_max) ∧
      RowHas dotImg 10 b.row_min ∧ RowHas dotImg 10 b.row_max ∧
      ColHas dotImg 10 b.col_min ∧ ColHas dotImg 10 b.col_max) :=
  ⟨by decide, ⟨1, 1, contentPix, by decide, by decide⟩,
    C1_computeContentBounds_tight dotImg 10 (by decide)
      ⟨1, 1, contentPix, by decide, by decide⟩⟩

/-- C2: for an image in which no pixel's opacity exceeds the threshold,
`computeContentBounds` returns the sentinel `none`, a valid outcome that is
distinguishable from every success result `some b`. -/
theorem C2_computeContentBounds_none (img : Image) (t : Nat)
    (h : ∀ row ∈ img.pixels, ∀ p ∈ row, p.a ≤ t) :
    computeContentBounds img t = none ∧
      ∀ b : Rect, computeContentBounds img t ≠ some b := by
  have hn := computeContentBounds_eq_none_of_no_row img t
    (no_row_of_transparent img t h)
  refine ⟨hn, fun b hb => ?_⟩
  rw [hn] at hb
  exact Option.noConfusion hb

theorem C2_witness :
    (∀ row ∈ transparentImg.pixels, ∀ p ∈ row, p.a ≤ 10) ∧
    (computeContentBounds transparentImg 10 = none ∧
      ∀ b : Rect, computeContentBounds transparentImg 10 ≠ some b) :=
  ⟨by decide, C2_computeContentBounds_none transparentImg 10 (by decide)⟩

/-- C3: for an RGBA image with an above-threshold pixel, `cropToContent`
returns exactly the inclusive bounds rectangle: the crop box ends are
`max_index + 1` in each axis, the output is `(col_max - col_min + 1)` wide and
`(row_max - row_min + 1)` tall, and pixel `(i, j)` of the output is pixel
`(row_min + i, col_min + j)` of the input. -/
theorem C3_cropToContent_exact (img : Image) (t : Nat)
    (hrect : img.Rectangular) (hm : img.mode = "RGBA")
    (h : ∃ (r c : Nat) (p : Pixel), img.pixelAt r c = some p ∧ t < p.a) :
    ∃ b, computeContentBounds img t = some b ∧
      cropToContent img t =
        img.crop b.col_min b.row_min (b.col_max + 1) (b.row_max + 1) ∧
      (cropToContent img t).height = b.row_max - b.row_min + 1 ∧
      (cropToContent img t).width = b.col_max - b.col_min + 1 ∧
      (∀ i j, i ≤ b.row_max - b.row_min → j ≤ b.col_max - b.col_min →
        (cropToContent img t).pixelAt i j =
          img.pixelAt (b.row_min + i) (b.col_min + j)) := by
  obtain ⟨r, c, p, hp, ha⟩ := h
  obtain ⟨b, hb⟩ := bounds_isSome img t hrect ⟨r, ⟨c, p, hp, ha⟩⟩
  have hcrop : cropToContent img t =
      img.crop b.col_min b.row_min (b.col_max + 1) (b.row_max + 1) := by
    unfold cropToContent
    exact autocrop_of_some img t hm b hb
  obtain ⟨hH, hW, -, htrans⟩ := cropped_spec img t hrect b hb
  refine ⟨b, hb, hcrop, ?_, ?_, ?_⟩
  · rw [hcrop]; exact hH
  · rw [hcrop]; exact hW
  · intro i j hi hj
    rw [hcrop]
    exact htrans i j hi hj

theorem C3_witness :
    dotImg.Rectangular ∧ dotImg.mode = "RGBA" ∧
    (∃ (r c : Nat) (p : Pixel), dotImg.pixelAt r c = some p ∧ 10 < p.a) ∧
    (∃ b, computeContentBounds dotImg 10 = some b ∧
      cropToContent dotImg 10 =
        dotImg.crop b.col_min b.row_min (b.col_max + 1) (b.row_max + 1) ∧
      (cropToContent dotImg 10).height = b.row_max - b.row_min + 1 ∧
      (cropToContent dotImg 10).width = b.col_max - b.col_min + 1 ∧
      (∀ i j, i ≤ b.row_max - b.row_min → j ≤ b.col_max - b.col_min →
        (cropToContent dotImg 10).pixelAt i j =
          dotImg.pixelAt (b.row_min + i) (b.col_min + j))) :=
  ⟨by decide, rfl, ⟨1, 1, contentPix, by decide, by decide⟩,
    C3_cropToContent_exact dotImg 10 (by decide) rfl
      ⟨1, 1, contentPix, by decide, by decide⟩⟩

/-- C4: when every pixel's opacity is at or below the threshold,
`cropToContent` returns its input image unchanged (whatever the mode) — it
neither fails nor produces a zero-size image, so the per-region pipeline
falls back to the padded, uncropped region. -/
theorem C4_cropToContent_noContent (img : Image) (t : Nat)
    (h : ∀ row ∈ img.pixels, ∀ p ∈ row, p.a ≤ t) :
    cropToContent img t = img := by
  unfold cropToContent
  by_cases hm : img.mode = "RGBA"
  · exact autocrop_of_none img t
      (computeContentBounds_eq_none_of_no_row img t (no_row_of_transparent img t h))
  · exact autocrop_of_not_rgba img t hm

theorem C4_witness :
    (∀ row ∈ transparentImg.pixels, ∀ p ∈ row, p.a ≤ 10) ∧
    cropToContent transparentImg 10 = transparentImg :=
  ⟨by decide, C4_cropToContent_noContent transparentImg 10 (by decide)⟩

/-- C5: `cropToContent` is idempotent — applying it to its own result
returns that result unchanged. -/
theorem C5_cropToContent_idempotent (img : Image) (t : Nat)
    (hrect : img.Rectangular) :
    cropToContent (cropToContent img t) t = cropToContent img t := by
  unfold cropToContent
  by_cases hm : img.mode = "RGBA"
  · cases hb : computeContentBounds img t with
    | none => rw [autocrop_of_none img t hb, autocrop_of_none img t hb]
    | some b =>
      rw [autocrop_of_some img t hm b hb]
      obtain ⟨hH, hW, hrect', -⟩ := cropped_spec img t hrect b hb
      have hb' := bounds_of_cropped img t hrect b hb
      have hm' : (img.crop b.col_min b.row_min (b.col_max + 1) (b.row_max + 1)).mode
          = "RGBA" := by
        rw [Image.crop_mode]; exact hm
      rw [autocrop_of_some _ t hm' _ hb']
      show (img.crop b.col_min b.row_min (b.col_max + 1) (b.row_max + 1)).crop
          0 0 (b.col_max - b.col_min + 1) (b.row_max - b.row_min + 1) =
        img.crop b.col_min b.row_min (b.col_max + 1) (b.row_max + 1)
      rw [← hW, ← hH]
      exact Image.crop_full _ hrect'
  · rw [autocrop_of_not_rgba img t hm, autocrop_of_not_rgba img t hm]

theorem C5_witness :
    dotImg.Rectangular ∧
    cropToContent (cropToContent dotImg 10) 10 = cropToContent dotImg 10 :=
  ⟨by decide, C5_cropToContent_idempotent dotImg 10 (by decide)⟩

/-- C6: for every image, region rectangle and non-negative padding, the
padded box is the rectangle expanded by `padding` on every side and clamped
to the image bounds, so it never exceeds them, and every pixel the crop reads
comes from a coordinate inside [0, width) × [0, height). -/
theorem C6_cropWithPadding_inBounds (img : Image) (x y w h padding : Int)
    (hpad : 0 ≤ padding) :
    0 ≤ (paddedBox img x y w h padding).1 ∧
    0 ≤ (paddedBox img x y w h padding).2.1 ∧
    (paddedBox img x y w h padding).2.2.1 ≤ (img.width : Int) ∧
    (paddedBox img x y w h padding).2.2.2 ≤ (img.height : Int) ∧
    (∀ (i j : Nat) (p : Pixel),
      (cropWithPadding img x y w h padding).pixelAt i j = some p →
      ∃ (r c : Nat), r < img.height ∧ c < img.width ∧ img.pixelAt r c = some p) := by
  refine ⟨le_max_left _ _, le_max_left _ _, min_le_left _ _, min_le_left _ _, ?_⟩
  intro i j p hp
  unfold cropWithPadding at hp
  rw [Image.pixelAt_crop] at hp
  split at hp
  case isTrue hcond =>
    obtain ⟨hi, hj⟩ := hcond
    refine ⟨(paddedBox img x y w h padding).2.1.toNat + i,
            (paddedBox img x y w h padding).1.toNat + j, ?_, ?_, hp⟩
    · have h2 : (paddedBox img x y w h padding).2.2.2 ≤ (img.height : Int) :=
        min_le_left _ _
      simp only [paddedBox] at hi h2 ⊢
      omega
    · have h2 : (paddedBox img x y w h padding).2.2.1 ≤ (img.width : Int) :=
        min_le_left _ _
      simp only [paddedBox] at hj h2 ⊢
      omega
  case isFalse => exact absurd hp (by simp)

theorem C6_witness :
    (0 : Int) ≤ 20 ∧
    (0 ≤ (paddedBox dotImg 0 0 2 2 20).1 ∧
     0 ≤ (paddedBox dotImg 0 0 2 2 20).2.1 ∧
     (paddedBox dotImg 0 0 2 2 20).2.2.1 ≤ (dotImg.width : Int) ∧
     (paddedBox dotImg 0 0 2 2 20).2.2.2 ≤ (dotImg.height : Int) ∧
     (∀ (i j : Nat) (p : Pixel),
       (cropWithPadding dotImg 0 0 2 2 20).pixelAt i j = some p →
       ∃ (r c : Nat), r < dotImg.height ∧ c < dotImg.width ∧
         dotImg.pixelAt r c = some p)) :=
  ⟨by decide, C6_cropWithPadding_inBounds dotImg 0 0 2 2 20 (by decide)⟩

/-- C7: a fully transparent image (every opacity at or below the threshold
10) extracts zero elements and its metadata `total` is 0; in general `total`
always equals the number of entries in the `elements` list. -/
theorem C7_transparent_extracts_nothing (img : Image) (padding : Int)
    (hm : img.mode = "RGBA")
    (h : ∀ row ∈ img.pixels, ∀ p ∈ row, p.a ≤ 10) :
    find_elements img padding = [] ∧
    (makeMetadata img padding).total = 0 ∧
    (∀ (img' : Image) (padding' : Int),
      (makeMetadata img' padding').total =
        (makeMetadata img' padding').elements.length) := by
  have hconv : img.convertRGBA = img := convertRGBA_of_rgba img hm
  have hfalse : (rowsAny img 10).any id = false := by
    cases hany : (rowsAny img 10).any id with
    | false => rfl
    | true =>
      exact absurd ((rowsAny_any_iff img 10).mp hany)
        (no_row_of_transparent img 10 h)
  have hfe : find_elements img padding = [] := by
    apply find_elements_of_empty
    rw [hconv, hfalse]
    simp
  refine ⟨hfe, ?_, fun img' padding' => rfl⟩
  unfold makeMetadata
  rw [hfe]
  rfl

theorem C7_witness :
    transparentImg.mode = "RGBA" ∧
    (∀ row ∈ transparentImg.pixels, ∀ p ∈ row, p.a ≤ 10) ∧
    (find_elements transparentImg 20 = [] ∧
     (makeMetadata transparentImg 20).total = 0 ∧
     (∀ (img' : Image) (padding' : Int),
       (makeMetadata img' padding').total =
         (makeMetadata img' padding').elements.length)) :=
  ⟨rfl, by decide, C7_transparent_extracts_nothing transparentImg 20 rfl (by decide)⟩

/-- C10: `autocrop_transparency` returns a non-RGBA image unchanged, without
its result depending on any pixel; the RGBA conversion happens only in the
loader, so `find_elements` treats any input exactly as its RGBA conversion. -/
theorem C10_autocrop_nonRGBA (img : Image) (t : Nat) (padding : Int)
    (h : img.mode ≠ "RGBA") :
    autocrop_transparency img t = img ∧
    find_elements img padding = find_elements img.convertRGBA padding := by
  refine ⟨autocrop_of_not_rgba img t h, ?_⟩
  unfold find_elements
  rw [convertRGBA_idem]

theorem C10_witness :
    rgbImg.mode ≠ "RGBA" ∧
    (autocrop_transparency rgbImg 10 = rgbImg ∧
     find_elements rgbImg 20 = find_elements rgbImg.convertRGBA 20) :=
  ⟨by decide, C10_autocrop_nonRGBA rgbImg 10 20 (by decide)⟩

set_option maxRecDepth 10000

/-- C8 counterexample: on the spec's scenario image (100×100, fully
transparent except the 10×10 opaque square of PIL box (40, 40, 50, 50)),
`computeContentBounds` returns the inclusive rectangle (40, 40, 49, 49)
— rows 40–49 and columns 40–49 — not (40, 40, 50, 50) read as inclusive
bounds. -/
theorem C8_counterexample :
    computeContentBounds squareImg 10 =
      some ⟨40, 49, 40, 49⟩ ∧
    computeContentBounds squareImg 10 ≠
      some ⟨40, 50, 40, 50⟩ := by
  have h : computeContentBounds squareImg 10 = some ⟨40, 49, 40, 49⟩ := by decide
  refine ⟨h, ?_⟩
  rw [h]
  decide

/-- C8 amended: on the scenario image, `computeContentBounds` returns the
inclusive rectangle with row/column minimum 40 and maximum 49 — equivalently
(40, 40, 10, 10) in x, y, width, height form — and `cropToContent` turns it
into the exclusive-end crop box (40, 40, 50, 50), producing a 10×10 output. -/
theorem C8_amended_bounds :
    computeContentBounds squareImg 10 = some ⟨40, 49, 40, 49⟩ ∧
    cropToContent squareImg 10 = squareImg.crop 40 40 50 50 ∧
    (cropToContent squareImg 10).width = 10 ∧
    (cropToContent squareImg 10).height = 10 := by
  have h : computeContentBounds squareImg 10 = some ⟨40, 49, 40, 49⟩ := by decide
  have hcrop : cropToContent squareImg 10 = squareImg.crop 40 40 50 50 := by
    unfold cropToContent
    exact autocrop_of_some squareImg 10 rfl _ h
  refine ⟨h, hcrop, ?_, ?_⟩ <;> rw [hcrop] <;> decide

/-- C9 counterexample: the hard-coded region table has 26 entries, not 25:
a fully opaque 4×4 sheet (which has above-threshold pixels) extracts 26
elements, so the metadata `total` is 26, never 25. -/
theorem C9_counterexample :
    (∃ (r c : Nat) (p : Pixel), solidImg.pixelAt r c = some p ∧ 10 < p.a) ∧
    (define_ui_regions solidImg.width solidImg.height).length = 26 ∧
    (find_elements solidImg 20).length = 26 ∧
    (find_elements solidImg 20).length ≠ 25 := by
  refine ⟨⟨0, 0, contentPix, by decide, by decide⟩, rfl, ?_⟩
  have h : (find_elements solidImg 20).length = 26 := by decide
  exact ⟨h, by rw [h]; decide⟩

/-- C9 amended: `find_elements` extracts exactly one element per entry of
the fixed region table, which has 26 entries; the metadata `total` is always
either 0 (no above-threshold pixel anywhere after conversion) or exactly 26,
and it is exactly 26 whenever the sheet has visible content. -/
theorem C9_total_zero_or_26 (img : Image) (padding : Int)
    (hrect : img.Rectangular) :
    ((find_elements img padding).length = 0 ∨
     (find_elements img padding).length = 26) ∧
    ((∃ (r c : Nat) (p : Pixel),
        img.convertRGBA.pixelAt r c = some p ∧ 10 < p.a) →
      (find_elements img padding).length = 26) := by
  have hrect' : img.convertRGBA.Rectangular := convertRGBA_rectangular hrect
  constructor
  · by_cases hcond : ((rowsAny img.convertRGBA 10).any id
        && (colsAny img.convertRGBA 10).any id) = true
    · rw [Bool.and_eq_true] at hcond
      exact Or.inr (find_elements_length_of_content img padding hcond.1 hcond.2)
    · rw [find_elements_of_empty img padding hcond]
      exact Or.inl rfl
  · rintro ⟨r, c, p, hp, ha⟩
    have hrany := (rowsAny_any_iff img.convertRGBA 10).mpr ⟨r, ⟨c, p, hp, ha⟩⟩
    have hcany := (colsAny_any_iff img.convertRGBA 10 hrect').mpr
      ⟨c, ⟨r, p, hp, ha⟩⟩
    exact find_elements_length_of_content img padding hrany hcany

theorem C9_witness :
    solidImg.Rectangular ∧
    (((find_elements solidImg 20).length = 0 ∨
      (find_elements solidImg 20).length = 26) ∧
     ((∃ (r c : Nat) (p : Pixel),
         solidImg.convertRGBA.pixelAt r c = some p ∧ 10 < p.a) →
       (find_elements solidImg 20).length = 26)) :=
  ⟨by decide, C9_total_zero_or_26 solidImg 20 (by decide)⟩
